import Mathlib

/-!
Shallow embedding of the StudentGroupingSystem repository
(`course.py`, `criterion.py`, `survey.py`; the groupers of the missing
`grouper.py` are modelled from the spec) together with theorems settling
the claims about it.

Modelling conventions:
* Python floats are modelled as exact rationals; all the divisions the
  code performs are exact in this program, so no rounding is modelled.
* Python exceptions are modelled with `Except PyErr`: `InvalidAnswerError`
  as `PyErr.invalidAnswer`, the `TypeError` raised by hashing an
  unhashable value as `PyErr.typeError`, and `ZeroDivisionError` as
  `PyErr.zeroDivisionError`.
* Python dictionaries with `int` keys are modelled as association lists
  (`dictLookup`, `dictInsert`, `dictKeys`); insertion overwrites the value
  of an existing key in place, as a Python dict does.
-/

/-- The Python exceptions the embedded code can raise. -/
inductive PyErr where
  | invalidAnswer
  | typeError
  | zeroDivisionError
deriving DecidableEq

instance {ε α : Type} [DecidableEq ε] [DecidableEq α] : DecidableEq (Except ε α) :=
  fun x y =>
    match x, y with
    | .ok a, .ok b =>
      decidable_of_iff (a = b) ⟨fun h => by rw [h], fun h => by injection h⟩
    | .ok _, .error _ => isFalse (fun h => Except.noConfusion h)
    | .error _, .ok _ => isFalse (fun h => Except.noConfusion h)
    | .error e1, .error e2 =>
      decidable_of_iff (e1 = e2) ⟨fun h => by rw [h], fun h => by injection h⟩

/-- The content values an `Answer` can carry in this program: booleans
(YesNoQuestion), integers (NumericQuestion), strings (MultipleChoiceQuestion
options) and lists of strings (CheckboxQuestion). -/
inductive Content where
  | bool (b : Bool)
  | int (n : Int)
  | str (s : String)
  | list (l : List String)
deriving DecidableEq

/-- True iff the content is a Python list (an unhashable value). -/
def Content.isList : Content → Bool
  | .list _ => true
  | _ => false

/-- Numeric view of a content value: Python treats `bool` as an `int`
(`True == 1`, `False == 0`); strings and lists are not numbers. -/
def pyNum : Content → Option Int
  | .bool b => some (if b then 1 else 0)
  | .int n => some n
  | _ => none

/-- Python `==` on content values: strings and lists compare by value,
booleans and integers compare numerically (`True == 1` in Python), and
values of unrelated types are unequal. -/
def pyEq (c1 c2 : Content) : Bool :=
  match c1, c2 with
  | .str s, .str t => s == t
  | .list l, .list m => l == m
  | c1, c2 =>
    match pyNum c1, pyNum c2 with
    | some m, some n => m == n
    | _, _ => false

/-- `survey.py` class `Answer`: an opaque content value. -/
structure Answer where
  content : Content
deriving DecidableEq

/-- `survey.py` question classes: `MultipleChoiceQuestion`, its subclass
`YesNoQuestion` (which overrides `validate_answer` and inherits
`get_similarity`), `NumericQuestion` and `CheckboxQuestion`. -/
inductive Question where
  | mc (id_ : Int) (text : String) (options : List Content)
  | yesno (id_ : Int) (text : String)
  | numeric (id_ : Int) (text : String) (min_ max_ : Int)
  | checkbox (id_ : Int) (text : String) (options : List String)
deriving DecidableEq

/-- The `id` attribute of a question. -/
def Question.id : Question → Int
  | .mc i _ _ => i
  | .yesno i _ => i
  | .numeric i _ _ _ => i
  | .checkbox i _ _ => i

/-- The constructor preconditions of the question classes that matter for
the arithmetic: `NumericQuestion.__init__` requires `min_ < max_`. -/
def Question.wf : Question → Bool
  | .numeric _ _ mn mx => decide (mn < mx)
  | _ => true

/-- `Question.validate_answer`, by dynamic dispatch:
* `MultipleChoiceQuestion`: the content is one of the options (Python
  `in`, which uses `==`);
* `YesNoQuestion`: the content is a `bool`;
* `NumericQuestion`: the content is an `int` that is not a `bool` and
  lies between the minimum and maximum (inclusive);
* `CheckboxQuestion`: the content is a non-empty duplicate-free list
  whose items are all options. -/
def Question.validate_answer (q : Question) (a : Answer) : Bool :=
  match q with
  | .mc _ _ options => options.any (fun o => pyEq a.content o)
  | .yesno _ _ =>
    match a.content with
    | .bool _ => true
    | _ => false
  | .numeric _ _ mn mx =>
    match a.content with
    | .int n => decide (mn ≤ n) && decide (n ≤ mx)
    | _ => false
  | .checkbox _ _ options =>
    match a.content with
    | .list l => (!l.isEmpty) && (l.dedup.length == l.length)
        && l.all (fun item => item ∈ options)
    | _ => false

/-- `Answer.is_valid` delegates to the question. -/
def Answer.is_valid (a : Answer) (q : Question) : Bool :=
  q.validate_answer a

/-- Python `set(content)` as used by `CheckboxQuestion.get_similarity`:
a list gives the set of its elements, a string gives the set of its
characters, and other contents are not iterable (`TypeError`). -/
def pySet : Content → Option (List String)
  | .list l => some l.dedup
  | .str s => some ((s.toList.map (fun c => c.toString)).dedup)
  | _ => none

/-- `Question.get_similarity`, by dynamic dispatch:
* `MultipleChoiceQuestion` (and `YesNoQuestion`, which inherits it): 1.0
  iff the contents are `==`, else 0.0;
* `NumericQuestion`: `1.0 - abs(c1 - c2) / (max - min)`; the division
  raises `ZeroDivisionError` when `max - min == 0`, and the subtraction
  raises `TypeError` on non-numeric content;
* `CheckboxQuestion`: `len(set1 & set2) / len(set1 | set2)`, with 1.0
  when the union is empty. -/
def Question.get_similarity (q : Question) (a1 a2 : Answer) : Except PyErr ℚ :=
  match q with
  | .mc _ _ _ | .yesno _ _ =>
    .ok (if pyEq a1.content a2.content then 1 else 0)
  | .numeric _ _ mn mx =>
    match pyNum a1.content, pyNum a2.content with
    | some x, some y =>
      if mx - mn = 0 then .error .zeroDivisionError
      else .ok (1 - ((|x - y| : Int) : ℚ) / ((mx - mn : Int) : ℚ))
    | _, _ => .error .typeError
  | .checkbox _ _ _ =>
    match pySet a1.content, pySet a2.content with
    | some s1, some s2 =>
      let u := (s1 ++ s2).dedup
      if u.length = 0 then .ok 1
      else .ok (((s1.filter (fun x => x ∈ s2)).length : ℚ) / (u.length : ℚ))
    | _, _ => .error .typeError

/-- The validity loop at the top of every `score_answers` implementation:
raise `InvalidAnswerError` at the first answer that is not valid. -/
def validateAll (q : Question) : List Answer → Except PyErr Unit
  | [] => .ok ()
  | a :: rest => if a.is_valid q then validateAll q rest else .error .invalidAnswer

/-- The inner loop of `HomogeneousCriterion.score_answers`: for a fixed
answer `a`, sum the similarities with each later answer and count the
pairs. -/
def rowScores (q : Question) (a : Answer) : List Answer → Except PyErr (ℚ × Nat)
  | [] => .ok (0, 0)
  | b :: rest =>
    match q.get_similarity a b with
    | .error e => .error e
    | .ok s =>
      match rowScores q a rest with
      | .error e => .error e
      | .ok (t, c) => .ok (s + t, c + 1)

/-- The double loop of `HomogeneousCriterion.score_answers`: total
similarity and pair count over every unordered pair of distinct indices,
in the order the Python loops visit them. -/
def pairScores (q : Question) : List Answer → Except PyErr (ℚ × Nat)
  | [] => .ok (0, 0)
  | a :: rest =>
    match rowScores q a rest with
    | .error e => .error e
    | .ok (s1, c1) =>
      match pairScores q rest with
      | .error e => .error e
      | .ok (s2, c2) => .ok (s1 + s2, c1 + c2)

/-- One step of building the `counts` dict of
`LonelyMemberCriterion.score_answers`: increment the count of a content
key, comparing keys with Python `==`. -/
def countsIncr : List (Content × Nat) → Content → List (Content × Nat)
  | [], c => [(c, 1)]
  | (k, n) :: rest, c =>
    if pyEq k c then (k, n + 1) :: rest else (k, n) :: countsIncr rest c

/-- The counting loop of `LonelyMemberCriterion.score_answers`. Using a
list content as a dict key raises `TypeError` (Python lists are
unhashable). -/
def buildCounts : List Answer → List (Content × Nat) → Except PyErr (List (Content × Nat))
  | [], acc => .ok acc
  | a :: rest, acc =>
    if a.content.isList then .error .typeError
    else buildCounts rest (countsIncr acc a.content)

/-- The closed set of criterion classes of `criterion.py`. -/
inductive CriterionT where
  | homogeneous
  | heterogeneous
  | lonelyMember
deriving DecidableEq

/-- The body of `HomogeneousCriterion.score_answers`: validate all
answers, return 1.0 for a single answer, otherwise the average similarity
over all unordered pairs of distinct answers. -/
def homogeneousScore (q : Question) (answers : List Answer) : Except PyErr ℚ :=
  match validateAll q answers with
  | .error e => .error e
  | .ok _ =>
    if answers.length = 1 then .ok 1
    else
      match pairScores q answers with
      | .error e => .error e
      | .ok (total, count) =>
        if count = 0 then .error .zeroDivisionError
        else .ok (total / (count : ℚ))

/-- `score_answers` of the three criterion classes:
* `HomogeneousCriterion`: the homogeneous body above;
* `HeterogeneousCriterion`: `1.0 - super().score_answers(...)`;
* `LonelyMemberCriterion`: validate all answers, return 0.0 for a single
  answer, otherwise build the content-count dict and return 0.0 iff some
  content occurs exactly once, else 1.0. -/
def CriterionT.score_answers (c : CriterionT) (q : Question) (answers : List Answer) :
    Except PyErr ℚ :=
  match c with
  | .homogeneous => homogeneousScore q answers
  | .heterogeneous =>
    match homogeneousScore q answers with
    | .error e => .error e
    | .ok s => .ok (1 - s)
  | .lonelyMember =>
    match validateAll q answers with
    | .error e => .error e
    | .ok _ =>
      if answers.length = 1 then .ok 0
      else
        match buildCounts answers [] with
        | .error e => .error e
        | .ok counts =>
          if counts.any (fun p => p.2 == 1) then .ok 0 else .ok 1

/-- Lookup in an int-keyed Python dict modelled as an association list. -/
def dictLookup {α : Type} : List (Int × α) → Int → Option α
  | [], _ => none
  | (k2, v) :: rest, k => if k = k2 then some v else dictLookup rest k

/-- Assignment `d[k] = v` on an int-keyed Python dict: overwrite the value
of an existing key in place, otherwise append the new key. -/
def dictInsert {α : Type} : List (Int × α) → Int → α → List (Int × α)
  | [], k, v => [(k, v)]
  | (k2, v2) :: rest, k, v =>
    if k = k2 then (k, v) :: rest else (k2, v2) :: dictInsert rest k v

/-- The key list of an int-keyed Python dict. -/
def dictKeys {α : Type} (d : List (Int × α)) : List Int :=
  d.map Prod.fst

/-- `course.py` class `Student`: id, name and the private mapping from
question id to the recorded answer. -/
structure Student where
  id : Int
  name : String
  _answers : List (Int × Answer)
deriving DecidableEq

/-- `Student.get_answer`: the recorded answer to the question, or none. -/
def Student.get_answer (s : Student) (q : Question) : Option Answer :=
  dictLookup s._answers q.id

/-- `Student.set_answer`: record the answer, replacing any previous one. -/
def Student.set_answer (s : Student) (q : Question) (a : Answer) : Student :=
  { s with _answers := dictInsert s._answers q.id a }

/-- `Student.has_answer`: `question.id in self._answers` — a key
containment test only; the stored answer is not validated. -/
def Student.has_answer (s : Student) (q : Question) : Bool :=
  (dictLookup s._answers q.id).isSome

/-- `course.py` class `Course`: name and enrolled students. -/
structure Course where
  name : String
  students : List Student
deriving DecidableEq

/-- `Course.enroll_students`: if any student of the batch has the id of an
already-enrolled student, return early leaving the course unchanged;
otherwise extend the student list with the whole batch. The Python method
is annotated `-> None` and every path returns `None`; the returned Python
value is modelled as an `Option Bool` (always `none`) to record that no
boolean is produced. -/
def Course.enroll_students (c : Course) (students : List Student) :
    Course × Option Bool :=
  let existing_ids := c.students.map (fun s => s.id)
  if students.any (fun s => s.id ∈ existing_ids) then (c, none)
  else ({ c with students := c.students ++ students }, none)

/-- `survey.py` class `Survey`: the three private dicts keyed by question
id. -/
structure Survey where
  _questions : List (Int × Question)
  _criteria : List (Int × CriterionT)
  _weights : List (Int × Int)
deriving DecidableEq

/-- The representation invariants of `Survey` (no two questions share an
id; each key equals the id of its question; the three dicts share their
key list; weights are positive) together with the constructor
preconditions of the stored questions. -/
def Survey.wf (S : Survey) : Bool :=
  decide (dictKeys S._questions).Nodup
    && S._questions.all (fun p => p.2.id == p.1 && p.2.wf)
    && dictKeys S._criteria == dictKeys S._questions
    && dictKeys S._weights == dictKeys S._questions
    && S._weights.all (fun p => 0 < p.2)

/-- `Survey.get_questions`: the questions listed by increasing id
(`sorted(self._questions)` sorts the dict keys). -/
def Survey.get_questions (S : Survey) : List Question :=
  (List.insertionSort (· ≤ ·) (dictKeys S._questions)).filterMap
    (fun k => dictLookup S._questions k)

/-- `Survey._get_criterion`. The Python code indexes the dict directly; a
missing key would raise `KeyError`, which the stated precondition rules
out, so the lookup is defaulted. -/
def Survey._get_criterion (S : Survey) (q : Question) : CriterionT :=
  (dictLookup S._criteria q.id).getD .homogeneous

/-- `Survey._get_weight`. Same defaulting remark as `_get_criterion`. -/
def Survey._get_weight (S : Survey) (q : Question) : Int :=
  (dictLookup S._weights q.id).getD 1

/-- `Survey._get_ans`: collect each student's recorded answer to the
question, or return `None` as soon as one student has no answer. -/
def Survey._get_ans (sts : List Student) (q : Question) : Option (List Answer) :=
  match sts with
  | [] => some []
  | s :: rest =>
    match s.get_answer q with
    | none => none
    | some a => (Survey._get_ans rest q).map (fun l => a :: l)

/-- The loop of `Survey.score_students` over the sorted questions:
accumulate criterion score times weight; `.ok none` models the early
`return 0.0` on a missing answer, and a raised exception propagates. -/
def scoreLoop (S : Survey) (sts : List Student) :
    List Question → ℚ → Except PyErr (Option ℚ)
  | [], total => .ok (some total)
  | q :: qs, total =>
    match Survey._get_ans sts q with
    | none => .ok none
    | some answers =>
      match (S._get_criterion q).score_answers q answers with
      | .error e => .error e
      | .ok sc => scoreLoop S sts qs (total + sc * (S._get_weight q : ℚ))

/-- `Survey.score_students`: 0.0 for a survey without questions; run the
question loop inside `try ... except InvalidAnswerError: return 0.0`, so
an `InvalidAnswerError` becomes 0.0 while any other exception
propagates; a missing answer returns 0.0; otherwise the accumulated
total divided by the number of questions. -/
def Survey.score_students (S : Survey) (students : List Student) : Except PyErr ℚ :=
  if S._questions.length = 0 then .ok 0
  else
    match scoreLoop S students S.get_questions 0 with
    | .ok (some total) => .ok (total / (S._questions.length : ℚ))
    | .ok none => .ok 0
    | .error .invalidAnswer => .ok 0
    | .error e => .error e

namespace Grouper

/-- Modelled from the spec: `grouper.py` is not under `src/` (only
`tests.py` imports it). Class `Group`: a container of members (the name
lives in the `Grouper` namespace because `Group` is taken in Lean). -/
structure Group where
  members : List Student
deriving DecidableEq

/-- Modelled from the spec: `Group.get_members`, a copy of the member
list. -/
def Group.get_members (g : Group) : List Student :=
  g.members

/-- Modelled from the spec: `grouper.py` class `Grouping`, an ordered
sequence of groups. -/
structure Grouping where
  groups : List Group
deriving DecidableEq

/-- Modelled from the spec: `Grouping.get_groups`, the groups in
insertion order. -/
def Grouping.get_groups (g : Grouping) : List Group :=
  g.groups

end Grouper

/-- The summation loop of `Survey.score_grouping` over the groups. -/
def sumGroupScores (S : Survey) : List Grouper.Group → Except PyErr ℚ
  | [] => .ok 0
  | g :: rest =>
    match S.score_students g.get_members with
    | .error e => .error e
    | .ok s =>
      match sumGroupScores S rest with
      | .error e => .error e
      | .ok t => .ok (s + t)

/-- `Survey.score_grouping`: 0.0 for an empty grouping, otherwise the
average of `score_students` over the groups. -/
def Survey.score_grouping (S : Survey) (grouping : Grouper.Grouping) : Except PyErr ℚ :=
  if grouping.get_groups.length = 0 then .ok 0
  else
    match sumGroupScores S grouping.get_groups with
    | .error e => .error e
    | .ok total => .ok (total / (grouping.get_groups.length : ℚ))

/-- The value of a float-returning call, with a raised exception read as
no score (0); used to state claims that compare aggregate scores. -/
def exceptValD (e : Except PyErr ℚ) : ℚ :=
  match e with
  | .ok r => r
  | .error _ => 0

/-- The answers gathered from the students for one question, in student
order: the recorded answers of those students that have one (when every
student has one this is exactly the list `Survey._get_ans` collects). -/
def gatheredAnswers (sts : List Student) (q : Question) : List Answer :=
  sts.filterMap (fun s => s.get_answer q)

namespace Grouper

/-- Modelled from the spec: the ordering key of the deterministic
(alphabetical) construction — name first, id as tie-break. -/
def alphaLe (a b : Student) : Prop :=
  a.name < b.name ∨ (a.name = b.name ∧ a.id ≤ b.id)

instance : DecidableRel alphaLe := fun a b => by
  unfold alphaLe
  infer_instance

/-- Modelled from the spec: slice a list into consecutive chunks of
`size` members (the last chunk is short if the length is not a
multiple, an open question the spec leaves to the implementer). -/
def chunkList (size : Nat) : List Student → List (List Student)
  | [] => []
  | s :: rest =>
    (s :: rest.take (size - 1)) :: chunkList size (rest.drop (size - 1))
termination_by l => l.length
decreasing_by
  simp only [List.length_drop, List.length_cons]
  omega

/-- Modelled from the spec: `AlphaGrouper.make_grouping` — sort the
population by name (id as tie-break) and slice into consecutive chunks
of the group size. -/
def AlphaGrouper.make_grouping (size : Nat) (population : List Student) : Grouping :=
  ⟨(chunkList size (List.insertionSort alphaLe population)).map Group.mk⟩

/-- The objective the greedy search maximizes: the aggregate grouping
score of the survey, a raised exception read as no score. -/
def obj (S : Survey) (g : Grouping) : ℚ :=
  exceptValD (S.score_grouping g)

/-- Modelled from the spec: exchange member `k` of group `i` with member
`l` of group `j`; out-of-range indices leave the grouping unchanged. -/
def Grouping.swap (g : Grouping) (i j k l : Nat) : Grouping :=
  match g.groups[i]?, g.groups[j]? with
  | some gi, some gj =>
    match gi.members[k]?, gj.members[l]? with
    | some mi, some mj =>
      ⟨(g.groups.set i ⟨gi.members.set k mj⟩).set j ⟨gj.members.set l mi⟩⟩
    | _, _ => g
  | _, _ => g

/-- Concatenation of the lists produced for each element, in order. -/
def concatMap {α β : Type} (f : α → List β) : List α → List β
  | [] => []
  | a :: rest => f a ++ concatMap f rest

/-- The number of members of group `i` of the grouping. -/
def Grouping.sizeAt (g : Grouping) (i : Nat) : Nat :=
  ((g.groups[i]?).map (fun gr => gr.members.length)).getD 0

/-- Modelled from the spec: the single-pair-swap neighborhood — for every
unordered pair of groups and every pair of one member from each, the
grouping with the two members exchanged, enumerated in group-index then
member-index order. -/
def Grouping.allSwaps (g : Grouping) : List Grouping :=
  concatMap (fun i =>
    concatMap (fun j =>
      concatMap (fun k =>
        concatMap (fun l => [g.swap i j k l])
          (List.range (g.sizeAt j)))
        (List.range (g.sizeAt i)))
      ((List.range g.groups.length).filter (fun j => i < j)))
    (List.range g.groups.length)

/-- Modelled from the spec: choose the candidate with the largest
objective value, the first encountered winning ties. -/
def pickBest (S : Survey) (cands : List Grouping) : Option Grouping :=
  cands.foldl
    (fun best c =>
      match best with
      | none => some c
      | some b => if obj S b < obj S c then some c else some b)
    none

/-- Modelled from the spec: one full pass of the greedy search — apply
the best swap if it strictly improves the objective, otherwise report a
local optimum. -/
def stepSwap (S : Survey) (g : Grouping) : Option Grouping :=
  match pickBest S g.allSwaps with
  | none => none
  | some b => if obj S g < obj S b then some b else none

/-- Modelled from the spec: repeat passes until no improving swap is
found or the iteration budget is exhausted. -/
def climb (S : Survey) : Nat → Grouping → Grouping
  | 0, g => g
  | fuel + 1, g =>
    match stepSwap S g with
    | none => g
    | some g2 => climb S fuel g2

/-- Modelled from the spec: `GreedyGrouper.make_grouping` — start from
the deterministic baseline partition and hill-climb over single-pair
swaps under an iteration budget. -/
def GreedyGrouper.make_grouping (size fuel : Nat) (population : List Student)
    (S : Survey) : Grouping :=
  climb S fuel (AlphaGrouper.make_grouping size population)

end Grouper

/-- The discrete question types: single-choice (`MultipleChoiceQuestion`
and `YesNoQuestion`) and multi-choice (`CheckboxQuestion`). -/
def Question.isDiscrete : Question → Bool
  | .numeric _ _ _ _ => false
  | _ => true

theorem pyEq_refl (c : Content) : pyEq c c = true := by
  cases c <;> simp [pyEq, pyNum]

theorem pyEq_symm (c1 c2 : Content) : pyEq c1 c2 = pyEq c2 c1 := by
  cases c1 <;> cases c2 <;> simp [pyEq, pyNum, BEq.comm]

theorem validateAll_eq_ok_iff (q : Question) (l : List Answer) :
    validateAll q l = .ok () ↔ ∀ a ∈ l, q.validate_answer a = true := by
  induction l with
  | nil => simp [validateAll]
  | cons a rest ih =>
    simp only [validateAll, Answer.is_valid, List.forall_mem_cons]
    by_cases h : q.validate_answer a = true
    · simp [h, ih]
    · simp [h]

theorem validateAll_cases (q : Question) (l : List Answer) :
    validateAll q l = .ok () ∨ validateAll q l = .error .invalidAnswer := by
  induction l with
  | nil => simp [validateAll]
  | cons a rest ih =>
    by_cases h : a.is_valid q = true
    · simpa [validateAll, h] using ih
    · simp [validateAll, h]

theorem validateAll_eq_error_iff (q : Question) (l : List Answer) :
    validateAll q l = .error .invalidAnswer ↔ ∃ a ∈ l, q.validate_answer a = false := by
  constructor
  · intro h
    by_contra hc
    push_neg at hc
    have hall : ∀ a ∈ l, q.validate_answer a = true := by
      intro a ha
      have := hc a ha
      simpa using this
    rw [(validateAll_eq_ok_iff q l).mpr hall] at h
    exact Except.noConfusion h
  · intro ⟨a, ha, hinval⟩
    rcases validateAll_cases q l with h | h
    · have := (validateAll_eq_ok_iff q l).mp h a ha
      rw [hinval] at this
      exact Bool.noConfusion this
    · exact h

theorem sim_ne_invalid (q : Question) (a b : Answer) :
    q.get_similarity a b ≠ .error .invalidAnswer := by
  cases q with
  | mc _ _ _ => simp [Question.get_similarity]
  | yesno _ _ => simp [Question.get_similarity]
  | numeric _ _ mn mx =>
    simp only [Question.get_similarity]
    cases pyNum a.content <;> cases pyNum b.content <;> simp <;> split <;> simp
  | checkbox _ _ _ =>
    simp only [Question.get_similarity]
    cases pySet a.content <;> cases pySet b.content <;> simp
    split <;> simp

theorem toFinset_dedup_list (l : List String) : l.dedup.toFinset = l.toFinset := by
  ext x
  simp [List.mem_toFinset, List.mem_dedup]

theorem cb_inter_length (l1 l2 : List String) :
    (l1.dedup.filter (fun x => x ∈ l2)).length = (l1.toFinset ∩ l2.toFinset).card := by
  have hnd : (l1.dedup.filter (fun x => x ∈ l2)).Nodup :=
    (List.nodup_dedup l1).filter _
  rw [← List.toFinset_card_of_nodup hnd]
  congr 1
  ext x
  simp [List.mem_toFinset, List.mem_filter, List.mem_dedup]

theorem cb_union_length (l1 l2 : List String) :
    ((l1.dedup ++ l2.dedup).dedup).length = (l1.toFinset ∪ l2.toFinset).card := by
  have hnd := List.nodup_dedup (l1.dedup ++ l2.dedup)
  rw [← List.toFinset_card_of_nodup hnd, toFinset_dedup_list, List.toFinset_append,
    toFinset_dedup_list, toFinset_dedup_list]

/-- `get_similarity` on two valid answers to a well-formed question never
raises, gives the same value in either argument order, stays within
`[0, 1]`, and gives 1.0 on identical content for the discrete types. -/
theorem sim_spec (q : Question) (a b : Answer) (hwf : q.wf = true)
    (ha : q.validate_answer a = true) (hb : q.validate_answer b = true) :
    ∃ r : ℚ, q.get_similarity a b = .ok r ∧ q.get_similarity b a = .ok r ∧
      0 ≤ r ∧ r ≤ 1 ∧ (q.isDiscrete = true → a.content = b.content → r = 1) := by
  cases q with
  | mc i t options =>
    refine ⟨if pyEq a.content b.content then 1 else 0, rfl, ?_, ?_, ?_, ?_⟩
    · simp only [Question.get_similarity]
      rw [pyEq_symm b.content a.content]
    · split <;> norm_num
    · split <;> norm_num
    · intro _ hcc
      simp [hcc, pyEq_refl]
  | yesno i t =>
    refine ⟨if pyEq a.content b.content then 1 else 0, rfl, ?_, ?_, ?_, ?_⟩
    · simp only [Question.get_similarity]
      rw [pyEq_symm b.content a.content]
    · split <;> norm_num
    · split <;> norm_num
    · intro _ hcc
      simp [hcc, pyEq_refl]
  | numeric i t mn mx =>
    have hlt : mn < mx := by simpa [Question.wf] using hwf
    obtain ⟨x, hax, hx1, hx2⟩ : ∃ x, a.content = .int x ∧ mn ≤ x ∧ x ≤ mx := by
      cases hc : a.content <;> simp [Question.validate_answer, hc] at ha
      exact ⟨_, rfl, ha.1, ha.2⟩
    obtain ⟨y, hby, hy1, hy2⟩ : ∃ y, b.content = .int y ∧ mn ≤ y ∧ y ≤ mx := by
      cases hc : b.content <;> simp [Question.validate_answer, hc] at hb
      exact ⟨_, rfl, hb.1, hb.2⟩
    have hR : mx - mn ≠ 0 := by omega
    have hRpos : (0 : ℚ) < ((mx - mn : Int) : ℚ) := by
      rw [Int.cast_pos]
      omega
    have habs : |x - y| ≤ mx - mn := by
      rw [abs_sub_le_iff]
      omega
    have hq1 : ((|x - y| : Int) : ℚ) ≤ ((mx - mn : Int) : ℚ) := Int.cast_le.mpr habs
    have hq0 : (0 : ℚ) ≤ ((|x - y| : Int) : ℚ) := by
      rw [← Int.cast_zero, Int.cast_le]
      exact abs_nonneg _
    refine ⟨1 - ((|x - y| : Int) : ℚ) / ((mx - mn : Int) : ℚ), ?_, ?_, ?_, ?_, ?_⟩
    · simp [Question.get_similarity, hax, hby, pyNum, hR]
    · simp [Question.get_similarity, hax, hby, pyNum, hR, abs_sub_comm]
    · have : ((|x - y| : Int) : ℚ) / ((mx - mn : Int) : ℚ) ≤ 1 :=
        (div_le_one hRpos).mpr hq1
      linarith
    · have : 0 ≤ ((|x - y| : Int) : ℚ) / ((mx - mn : Int) : ℚ) :=
        div_nonneg hq0 hRpos.le
      linarith
    · intro hd
      simp [Question.isDiscrete] at hd
  | checkbox i t options =>
    obtain ⟨l1, hl1⟩ : ∃ l, a.content = .list l := by
      cases hc : a.content <;> simp [Question.validate_answer, hc] at ha
      exact ⟨_, rfl⟩
    obtain ⟨l2, hl2⟩ : ∃ l, b.content = .list l := by
      cases hc : b.content <;> simp [Question.validate_answer, hc] at hb
      exact ⟨_, rfl⟩
    by_cases hu : (l1.toFinset ∪ l2.toFinset).card = 0
    · refine ⟨1, ?_, ?_, by norm_num, by norm_num, fun _ _ => rfl⟩
      · simp [Question.get_similarity, hl1, hl2, pySet, cb_union_length, hu]
      · simp [Question.get_similarity, hl1, hl2, pySet, cb_union_length,
          Finset.union_comm l2.toFinset l1.toFinset, hu]
    · have hinter : (l1.dedup.filter (fun x => x ∈ l2)).length
          = (l1.toFinset ∩ l2.toFinset).card := cb_inter_length l1 l2
      have hinter2 : (l2.dedup.filter (fun x => x ∈ l1)).length
          = (l1.toFinset ∩ l2.toFinset).card := by
        rw [Finset.inter_comm]
        exact cb_inter_length l2 l1
      have hupos : 0 < (l1.toFinset ∪ l2.toFinset).card := Nat.pos_of_ne_zero hu
      have huposq : (0 : ℚ) < ((l1.toFinset ∪ l2.toFinset).card : ℚ) := by
        exact_mod_cast hupos
      refine ⟨((l1.toFinset ∩ l2.toFinset).card : ℚ)
          / ((l1.toFinset ∪ l2.toFinset).card : ℚ), ?_, ?_, ?_, ?_, ?_⟩
      · simp [Question.get_similarity, hl1, hl2, pySet, cb_union_length, hu, hinter]
      · simp [Question.get_similarity, hl1, hl2, pySet, cb_union_length,
          Finset.union_comm l2.toFinset l1.toFinset, hu, hinter2]
      · positivity
      · rw [div_le_one huposq]
        exact_mod_cast Finset.card_le_card Finset.inter_subset_union
      · intro _ hcc
        rw [hl1] at hcc
        rw [hl2] at hcc
        cases hcc
        rw [Finset.inter_self, Finset.union_self] at *
        exact div_self (by positivity)

theorem rowScores_ne_invalid (q : Question) (a : Answer) (l : List Answer) :
    rowScores q a l ≠ .error .invalidAnswer := by
  induction l with
  | nil => simp [rowScores]
  | cons b rest ih =>
    simp only [rowScores]
    cases hs : q.get_similarity a b with
    | error e =>
      intro hc
      injection hc with he
      exact sim_ne_invalid q a b (by rw [hs, he])
    | ok s =>
      cases hr : rowScores q a rest with
      | error e =>
        intro hc
        injection hc with he
        exact ih (by rw [hr, he])
      | ok p => simp

theorem pairScores_ne_invalid (q : Question) (l : List Answer) :
    pairScores q l ≠ .error .invalidAnswer := by
  induction l with
  | nil => simp [pairScores]
  | cons a rest ih =>
    simp only [pairScores]
    cases hr : rowScores q a rest with
    | error e =>
      intro hc
      injection hc with he
      exact rowScores_ne_invalid q a rest (by rw [hr, he])
    | ok p1 =>
      cases hp : pairScores q rest with
      | error e =>
        intro hc
        injection hc with he
        exact ih (by rw [hp, he])
      | ok p2 => simp

theorem rowScores_ok (q : Question) (a : Answer) (l : List Answer) (hwf : q.wf = true)
    (ha : q.validate_answer a = true) (hl : ∀ b ∈ l, q.validate_answer b = true) :
    ∃ s, rowScores q a l = .ok (s, l.length) := by
  induction l with
  | nil => exact ⟨0, rfl⟩
  | cons b rest ih =>
    obtain ⟨r, hr, -⟩ := sim_spec q a b hwf ha (hl b (by simp))
    obtain ⟨s, hs⟩ := ih (fun b2 hb2 => hl b2 (by simp [hb2]))
    exact ⟨r + s, by simp [rowScores, hr, hs]⟩

theorem pairScores_ok (q : Question) (l : List Answer) (hwf : q.wf = true)
    (hl : ∀ a ∈ l, q.validate_answer a = true) :
    ∃ s, pairScores q l = .ok (s, l.length.choose 2) := by
  induction l with
  | nil => exact ⟨0, rfl⟩
  | cons a rest ih =>
    obtain ⟨s1, hs1⟩ := rowScores_ok q a rest hwf (hl a (by simp))
      (fun b hb => hl b (by simp [hb]))
    obtain ⟨s2, hs2⟩ := ih (fun b hb => hl b (by simp [hb]))
    refine ⟨s1 + s2, ?_⟩
    simp [pairScores, hs1, hs2, List.length_cons, Nat.choose_succ_succ, Nat.add_comm]

theorem homogeneousScore_ok (q : Question) (l : List Answer) (hwf : q.wf = true)
    (hne : l ≠ []) (hval : ∀ a ∈ l, q.validate_answer a = true) :
    ∃ h, homogeneousScore q l = .ok h := by
  have hv : validateAll q l = .ok () := (validateAll_eq_ok_iff q l).mpr hval
  by_cases h1 : l.length = 1
  · exact ⟨1, by simp [homogeneousScore, hv, h1]⟩
  · obtain ⟨s, hs⟩ := pairScores_ok q l hwf hval
    have h2 : 2 ≤ l.length := by
      cases l with
      | nil => exact absurd rfl hne
      | cons a rest =>
        cases rest with
        | nil => exact absurd rfl h1
        | cons b r2 => simp
    have hc : l.length.choose 2 ≠ 0 := Nat.pos_iff_ne_zero.mp (Nat.choose_pos h2)
    exact ⟨s / (l.length.choose 2 : ℚ), by simp [homogeneousScore, hv, h1, hs, hc]⟩

theorem buildCounts_ok (l : List Answer) (hnl : ∀ a ∈ l, a.content.isList = false) :
    ∀ acc, ∃ cs, buildCounts l acc = .ok cs := by
  induction l with
  | nil => exact fun acc => ⟨acc, rfl⟩
  | cons a rest ih =>
    intro acc
    have ha : a.content.isList = false := hnl a (by simp)
    obtain ⟨cs, hcs⟩ := ih (fun b hb => hnl b (by simp [hb])) (countsIncr acc a.content)
    exact ⟨cs, by simp [buildCounts, ha, hcs]⟩

theorem buildCounts_ne_invalid (l : List Answer) :
    ∀ acc, buildCounts l acc ≠ .error .invalidAnswer := by
  induction l with
  | nil => simp [buildCounts]
  | cons a rest ih =>
    intro acc
    simp only [buildCounts]
    split
    · simp
    · exact ih _

/-- `score_answers` of every criterion returns a value whenever the
question is well formed, the answer list is non-empty and all valid, and
a LonelyMember criterion is not fed list-valued (unhashable) content. -/
theorem crit_ok (c : CriterionT) (q : Question) (l : List Answer) (hwf : q.wf = true)
    (hne : l ≠ []) (hval : ∀ a ∈ l, q.validate_answer a = true)
    (hlon : c = .lonelyMember → ∀ a ∈ l, a.content.isList = false) :
    ∃ r, c.score_answers q l = .ok r := by
  cases c with
  | homogeneous => exact homogeneousScore_ok q l hwf hne hval
  | heterogeneous =>
    obtain ⟨h, hh⟩ := homogeneousScore_ok q l hwf hne hval
    exact ⟨1 - h, by simp [CriterionT.score_answers, hh]⟩
  | lonelyMember =>
    have hv : validateAll q l = .ok () := (validateAll_eq_ok_iff q l).mpr hval
    by_cases h1 : l.length = 1
    · exact ⟨0, by simp [CriterionT.score_answers, hv, h1]⟩
    · obtain ⟨cs, hcs⟩ := buildCounts_ok l (hlon rfl) []
      by_cases hany : cs.any (fun p => p.2 == 1)
      · exact ⟨0, by simp [CriterionT.score_answers, hv, h1, hcs, hany]⟩
      · exact ⟨1, by simp [CriterionT.score_answers, hv, h1, hcs, hany]⟩

/-- `score_answers` raises `InvalidAnswerError` exactly when some answer
in the list is invalid for the question, for every criterion. -/
theorem crit_invalid_iff (c : CriterionT) (q : Question) (l : List Answer) :
    c.score_answers q l = .error .invalidAnswer ↔
      ∃ a ∈ l, q.validate_answer a = false := by
  have hom_iff : homogeneousScore q l = .error .invalidAnswer ↔
      ∃ a ∈ l, q.validate_answer a = false := by
    constructor
    · intro h
      rcases validateAll_cases q l with hv | hv
      · exfalso
        simp only [homogeneousScore, hv] at h
        by_cases h1 : l.length = 1
        · simp [h1] at h
        · simp only [h1, if_false] at h
          cases hp : pairScores q l with
          | error e =>
            rw [hp] at h
            simp at h
            exact pairScores_ne_invalid q l (by rw [hp, h])
          | ok p =>
            rw [hp] at h
            by_cases hc : p.2 = 0 <;> simp [hc] at h
      · exact (validateAll_eq_error_iff q l).mp hv
    · intro hex
      have hv := (validateAll_eq_error_iff q l).mpr hex
      simp [homogeneousScore, hv]
  cases c with
  | homogeneous => exact hom_iff
  | heterogeneous =>
    simp only [CriterionT.score_answers]
    rw [← hom_iff]
    cases hh : homogeneousScore q l with
    | error e => simp
    | ok s => simp
  | lonelyMember =>
    constructor
    · intro h
      rcases validateAll_cases q l with hv | hv
      · exfalso
        simp only [CriterionT.score_answers, hv] at h
        by_cases h1 : l.length = 1
        · simp [h1] at h
        · simp only [h1, if_false] at h
          cases hb : buildCounts l [] with
          | error e =>
            rw [hb] at h
            simp at h
            exact buildCounts_ne_invalid l [] (by rw [hb, h])
          | ok cs =>
            rw [hb] at h
            by_cases hany : cs.any (fun p => p.2 == 1) <;> simp [hany] at h
      · exact (validateAll_eq_error_iff q l).mp hv
    · intro hex
      have hv := (validateAll_eq_error_iff q l).mpr hex
      simp [CriterionT.score_answers, hv]

/-- Under the same side conditions as `crit_ok`, the only exception
`score_answers` can raise is `InvalidAnswerError`. -/
theorem crit_no_hard (c : CriterionT) (q : Question) (l : List Answer) (hwf : q.wf = true)
    (hne : l ≠ []) (hlon : c = .lonelyMember → ∀ a ∈ l, a.content.isList = false)
    (e : PyErr) (h : c.score_answers q l = .error e) : e = .invalidAnswer := by
  by_contra hc
  by_cases hval : ∀ a ∈ l, q.validate_answer a = true
  · obtain ⟨r, hr⟩ := crit_ok c q l hwf hne hval hlon
    rw [hr] at h
    exact Except.noConfusion h
  · push_neg at hval
    obtain ⟨a, ha, hinval⟩ := hval
    have : c.score_answers q l = .error .invalidAnswer :=
      (crit_invalid_iff c q l).mpr ⟨a, ha, by simpa using hinval⟩
    rw [this] at h
    injection h with he
    exact hc he.symm

theorem dictLookup_mem {α : Type} (d : List (Int × α)) (k : Int) (v : α)
    (h : dictLookup d k = some v) : (k, v) ∈ d := by
  induction d with
  | nil => simp [dictLookup] at h
  | cons p rest ih =>
    obtain ⟨k2, v2⟩ := p
    by_cases hk : k = k2
    · simp only [dictLookup, if_pos hk] at h
      injection h with hv
      simp [hk, hv]
    · simp only [dictLookup, if_neg hk] at h
      simp [ih h]

theorem survey_wf_nodup (S : Survey) (h : S.wf = true) :
    (dictKeys S._questions).Nodup := by
  simp only [Survey.wf, Bool.and_eq_true, decide_eq_true_eq] at h
  exact h.1.1.1.1

theorem survey_wf_entry (S : Survey) (h : S.wf = true) (k : Int) (q : Question)
    (hm : (k, q) ∈ S._questions) : q.id = k ∧ q.wf = true := by
  simp only [Survey.wf, Bool.and_eq_true, decide_eq_true_eq, List.all_eq_true] at h
  have := h.1.1.1.2 (k, q) hm
  simp only [Bool.and_eq_true, beq_iff_eq] at this
  exact this

theorem mem_get_questions (S : Survey) (hwf : S.wf = true) (q : Question)
    (h : q ∈ S.get_questions) : (q.id, q) ∈ S._questions ∧ q.wf = true := by
  simp only [Survey.get_questions, List.mem_filterMap] at h
  obtain ⟨k, -, hk⟩ := h
  have hm := dictLookup_mem _ _ _ hk
  obtain ⟨hid, hqwf⟩ := survey_wf_entry S hwf k q hm
  rw [hid]
  exact ⟨hm, hqwf⟩

theorem pairwise_filterMap_lookup (d : List (Int × Question)) (ks : List Int)
    (hks : ks.Pairwise (· < ·))
    (hid : ∀ k q, dictLookup d k = some q → Question.id q = k) :
    (ks.filterMap (fun k => dictLookup d k)).Pairwise (fun a b => a.id < b.id) := by
  induction ks with
  | nil => simp
  | cons k rest ih =>
    rw [List.pairwise_cons] at hks
    obtain ⟨hk, hrest⟩ := hks
    simp only [List.filterMap_cons]
    cases hl : dictLookup d k with
    | none => exact ih hrest
    | some q =>
      refine List.Pairwise.cons ?_ (ih hrest)
      intro q2 hq2
      rw [List.mem_filterMap] at hq2
      obtain ⟨k2, hk2mem, hk2⟩ := hq2
      rw [hid k q hl, hid k2 q2 hk2]
      exact hk k2 hk2mem

/-- With the representation invariants, `get_questions` lists the
questions in strictly increasing id order. -/
theorem get_questions_sorted (S : Survey) (hwf : S.wf = true) :
    S.get_questions.Pairwise (fun q1 q2 => q1.id < q2.id) := by
  have hnodup : (dictKeys S._questions).Nodup := survey_wf_nodup S hwf
  have hsorted : (List.insertionSort (· ≤ ·) (dictKeys S._questions)).Sorted (· ≤ ·) :=
    List.sorted_insertionSort _ _
  have hnodup2 : (List.insertionSort (· ≤ ·) (dictKeys S._questions)).Nodup :=
    (List.perm_insertionSort _ _).nodup_iff.mpr hnodup
  have hlt := hsorted.lt_of_le hnodup2
  exact pairwise_filterMap_lookup _ _ hlt
    (fun k q hk => (survey_wf_entry S hwf k q (dictLookup_mem _ _ _ hk)).1)

theorem getAns_all_some (sts : List Student) (q : Question)
    (h : ∀ s ∈ sts, (s.get_answer q).isSome = true) :
    Survey._get_ans sts q = some (gatheredAnswers sts q) := by
  induction sts with
  | nil => simp [Survey._get_ans, gatheredAnswers]
  | cons s rest ih =>
    obtain ⟨a, ha⟩ := Option.isSome_iff_exists.mp (h s (by simp))
    have := ih (fun s2 hs2 => h s2 (by simp [hs2]))
    simp [Survey._get_ans, gatheredAnswers, ha, this]

theorem getAns_some_elim (sts : List Student) (q : Question) (l : List Answer)
    (h : Survey._get_ans sts q = some l) :
    l = gatheredAnswers sts q ∧ l.length = sts.length ∧
      ∀ s ∈ sts, (s.get_answer q).isSome = true := by
  induction sts generalizing l with
  | nil =>
    simp only [Survey._get_ans] at h
    injection h with h2
    simp [← h2, gatheredAnswers]
  | cons s rest ih =>
    simp only [Survey._get_ans] at h
    cases ha : s.get_answer q with
    | none => rw [ha] at h; exact Option.noConfusion h
    | some a =>
      rw [ha] at h
      cases hrest : Survey._get_ans rest q with
      | none => rw [hrest] at h; exact Option.noConfusion h
      | some l2 =>
        rw [hrest] at h
        injection h with h2
        obtain ⟨hg, hlen, hsome⟩ := ih l2 hrest
        constructor
        · rw [← h2, hg]
          simp [gatheredAnswers, ha]
        constructor
        · rw [← h2]
          simp [hlen]
        · intro s2 hs2
          rcases List.mem_cons.mp hs2 with h3 | h3
          · rw [h3, ha]; rfl
          · exact hsome s2 h3

theorem getAns_none_iff (sts : List Student) (q : Question) :
    Survey._get_ans sts q = none ↔ ∃ s ∈ sts, s.get_answer q = none := by
  induction sts with
  | nil => simp [Survey._get_ans]
  | cons s rest ih =>
    simp only [Survey._get_ans]
    cases ha : s.get_answer q with
    | none => simp [ha]
    | some a =>
      constructor
      · intro h
        have h2 : Survey._get_ans rest q = none := by
          cases hrest : Survey._get_ans rest q <;> simp [hrest] at h ⊢
        obtain ⟨s2, hs2, h3⟩ := ih.mp h2
        exact ⟨s2, by simp [hs2], h3⟩
      · intro ⟨s2, hs2, h2⟩
        rcases List.mem_cons.mp hs2 with h3 | h3
        · rw [h3] at h2; rw [h2] at ha; exact Option.noConfusion ha
        · have := ih.mpr ⟨s2, h3, h2⟩
          simp [this]

/-- When every question in the list gathers its answers and scores
without an exception, the question loop accumulates exactly the sum of
criterion score times weight. -/
theorem scoreLoop_ok (S : Survey) (sts : List Student) (qs : List Question)
    (h : ∀ q ∈ qs, Survey._get_ans sts q = some (gatheredAnswers sts q) ∧
      ∃ r, (S._get_criterion q).score_answers q (gatheredAnswers sts q) = .ok r) :
    ∀ total, scoreLoop S sts qs total = .ok (some (total +
      (qs.map (fun q => exceptValD ((S._get_criterion q).score_answers q
        (gatheredAnswers sts q)) * (S._get_weight q : ℚ))).sum)) := by
  induction qs with
  | nil =>
    intro total
    simp [scoreLoop]
  | cons q rest ih =>
    intro total
    obtain ⟨hg, r, hr⟩ := h q (by simp)
    have hrest := ih (fun q2 hq2 => h q2 (by simp [hq2]))
    simp only [scoreLoop, hg, hr, hrest, List.map_cons, List.sum_cons, exceptValD]
    congr 2
    ring

theorem scoreLoop_no_hard (S : Survey) (sts : List Student) (qs : List Question)
    (hwfq : ∀ q ∈ qs, q.wf = true)
    (hlon : ∀ q ∈ qs, S._get_criterion q = .lonelyMember →
      ∀ a ∈ gatheredAnswers sts q, a.content.isList = false)
    (hsts : sts ≠ []) :
    ∀ total e, scoreLoop S sts qs total = .error e → e = .invalidAnswer := by
  induction qs with
  | nil =>
    intro total e h
    simp [scoreLoop] at h
  | cons q rest ih =>
    intro total e h
    simp only [scoreLoop] at h
    cases hg : Survey._get_ans sts q with
    | none => simp [hg] at h
    | some l =>
      simp only [hg] at h
      obtain ⟨hgath, hlen, -⟩ := getAns_some_elim sts q l hg
      have hne : l ≠ [] := by
        intro hc
        rw [hc] at hlen
        exact hsts (List.length_eq_zero.mp hlen.symm)
      cases hs : (S._get_criterion q).score_answers q l with
      | error e2 =>
        simp only [hs] at h
        injection h with he
        rw [← he]
        refine crit_no_hard _ q l (hwfq q (by simp)) hne ?_ e2 hs
        intro hcrit
        rw [hgath]
        exact hlon q (by simp) hcrit
      | ok sc =>
        simp only [hs] at h
        exact ih (fun q2 hq2 => hwfq q2 (by simp [hq2]))
          (fun q2 hq2 => hlon q2 (by simp [hq2])) _ _ h

theorem scoreLoop_missing (S : Survey) (sts : List Student) (qs : List Question)
    (hmiss : ∃ q ∈ qs, ∃ s ∈ sts, s.get_answer q = none) :
    ∀ total t, scoreLoop S sts qs total ≠ .ok (some t) := by
  induction qs with
  | nil => simp at hmiss
  | cons q rest ih =>
    intro total t h
    simp only [scoreLoop] at h
    obtain ⟨q0, hq0, s0, hs0, hans0⟩ := hmiss
    cases hg : Survey._get_ans sts q with
    | none => simp [hg] at h
    | some l =>
      simp only [hg] at h
      rcases List.mem_cons.mp hq0 with h3 | h3
      · obtain ⟨-, -, hsome⟩ := getAns_some_elim sts q l hg
        have := hsome s0 hs0
        rw [← h3, hans0] at this
        exact Bool.noConfusion this
      · cases hs : (S._get_criterion q).score_answers q l with
        | error e2 => simp [hs] at h
        | ok sc =>
          simp only [hs] at h
          exact ih ⟨q0, h3, s0, hs0, hans0⟩ _ _ h

theorem scoreLoop_invalid (S : Survey) (sts : List Student) (qs : List Question)
    (hinv : ∃ q ∈ qs, ∃ a ∈ gatheredAnswers sts q, q.validate_answer a = false) :
    ∀ total t, scoreLoop S sts qs total ≠ .ok (some t) := by
  induction qs with
  | nil => simp at hinv
  | cons q rest ih =>
    intro total t h
    simp only [scoreLoop] at h
    obtain ⟨q0, hq0, a0, ha0, hinval0⟩ := hinv
    cases hg : Survey._get_ans sts q with
    | none => simp [hg] at h
    | some l =>
      simp only [hg] at h
      rcases List.mem_cons.mp hq0 with h3 | h3
      · obtain ⟨hgath, -, -⟩ := getAns_some_elim sts q l hg
        have herr : (S._get_criterion q).score_answers q l = .error .invalidAnswer := by
          refine (crit_invalid_iff _ q l).mpr ⟨a0, ?_, ?_⟩
          · rw [hgath, ← h3]; exact ha0
          · rw [← h3]; exact hinval0
        simp [herr] at h
      · cases hs : (S._get_criterion q).score_answers q l with
        | error e2 => simp [hs] at h
        | ok sc =>
          simp only [hs] at h
          exact ih ⟨q0, h3, a0, ha0, hinval0⟩ _ _ h

theorem dictLookup_dictInsert_self {α : Type} (d : List (Int × α)) (k : Int) (v : α) :
    dictLookup (dictInsert d k v) k = some v := by
  induction d with
  | nil => simp [dictInsert, dictLookup]
  | cons p rest ih =>
    obtain ⟨k2, v2⟩ := p
    by_cases hk : k = k2
    · simp [dictInsert, hk, dictLookup]
    · simp [dictInsert, hk, dictLookup, ih]

/-- Concrete fixtures used by witnesses and counterexamples. -/
def qYesNo : Question := .yesno 1 "Agree?"

def qYesNo2 : Question := .yesno 2 "Also agree?"

def qNum : Question := .numeric 2 "Rate" 0 10

def qCheck : Question := .checkbox 1 "College" ["a", "b"]

def ansT : Answer := ⟨.bool true⟩

def ansF : Answer := ⟨.bool false⟩

def ansList : Answer := ⟨.list ["a"]⟩

/-- A survey with one checkbox question scored by LonelyMember. -/
def SLonely : Survey := ⟨[(1, qCheck)], [(1, .lonelyMember)], [(1, 1)]⟩

/-- Same, plus a second (yes-no) question. -/
def SLonely2 : Survey :=
  ⟨[(1, qCheck), (2, qYesNo2)], [(1, .lonelyMember), (2, .homogeneous)],
    [(1, 1), (2, 1)]⟩

/-- A two-question survey with mixed criteria and a non-unit weight. -/
def SW : Survey :=
  ⟨[(1, qYesNo), (2, qNum)], [(1, .homogeneous), (2, .heterogeneous)],
    [(1, 2), (2, 1)]⟩

/-- A one-question baseline survey for the grouper claims. -/
def SB : Survey := ⟨[(1, qYesNo)], [(1, .homogeneous)], [(1, 1)]⟩

def stuA : Student := ⟨1, "A", [(1, ansT), (2, ⟨.int 3⟩)]⟩

def stuB : Student := ⟨2, "B", [(1, ansT), (2, ⟨.int 7⟩)]⟩

def stuC : Student := ⟨3, "C", []⟩

def stuL1 : Student := ⟨1, "A", [(1, ansList)]⟩

def stuL2 : Student := ⟨2, "B", [(1, ansList), (2, ansT)]⟩

def popW : List Student :=
  [⟨1, "D", [(1, ansT)]⟩, ⟨2, "A", [(1, ansF)]⟩, ⟨3, "B", [(1, ansT)]⟩,
    ⟨4, "C", [(1, ansF)]⟩]

def courseC : Course := ⟨"CSC148", [⟨1, "A", []⟩]⟩

def batchC : List Student := [⟨1, "B", []⟩, ⟨2, "C", []⟩]

/-- C3: the claim says LonelyMemberCriterion works alike for multi-choice
content with exact-set equality, and its own docstring promises a 0.0/1.0
score on valid answers; but on valid checkbox (list-valued) answers the
counting dict hashes the list content and Python raises `TypeError`: here
two identical valid answers, which should score 1.0, raise instead. -/
theorem c3_lonely_checkbox_typeerror :
    qCheck.validate_answer ansList = true ∧
    CriterionT.lonelyMember.score_answers qCheck [ansList, ansList]
      = .error .typeError := by
  decide

/-- C5: for every well-formed question and non-empty all-valid answer
list, the Homogeneous and Heterogeneous scores are values summing to
exactly 1. -/
theorem c5_hom_het_sum_one (q : Question) (answers : List Answer) (hwf : q.wf = true)
    (hne : answers ≠ []) (hval : ∀ a ∈ answers, q.validate_answer a = true) :
    ∃ h t, CriterionT.homogeneous.score_answers q answers = .ok h ∧
      CriterionT.heterogeneous.score_answers q answers = .ok t ∧ h + t = 1 := by
  obtain ⟨h, hh⟩ := homogeneousScore_ok q answers hwf hne hval
  refine ⟨h, 1 - h, hh, ?_, by ring⟩
  simp [CriterionT.score_answers, hh]

theorem c5_witness :
    qYesNo.wf = true ∧ ([ansT, ansF] : List Answer) ≠ [] ∧
    (∀ a ∈ [ansT, ansF], qYesNo.validate_answer a = true) ∧
    (∃ h t, CriterionT.homogeneous.score_answers qYesNo [ansT, ansF] = .ok h ∧
      CriterionT.heterogeneous.score_answers qYesNo [ansT, ansF] = .ok t ∧
      h + t = 1) :=
  ⟨by decide, by decide, by decide,
    c5_hom_het_sum_one qYesNo [ansT, ansF] (by decide) (by decide) (by decide)⟩

/-- C6: for every criterion variant, `score_answers` raises
`InvalidAnswerError` iff some answer in the (non-empty) list fails
`validate_answer`; in the embedding the raised error is the returned
`Except.error`, which a direct caller observes. -/
theorem c6_invalid_iff (q : Question) (answers : List Answer) (hne : answers ≠ [])
    (c : CriterionT) :
    c.score_answers q answers = .error .invalidAnswer ↔
      ∃ a ∈ answers, q.validate_answer a = false :=
  crit_invalid_iff c q answers

theorem c6_witness :
    ([(⟨.str "yes"⟩ : Answer)] ≠ ([] : List Answer)) ∧
    (CriterionT.lonelyMember.score_answers qYesNo [⟨.str "yes"⟩]
        = .error .invalidAnswer ↔
      ∃ a ∈ [(⟨.str "yes"⟩ : Answer)], qYesNo.validate_answer a = false) :=
  ⟨by decide, c6_invalid_iff qYesNo [⟨.str "yes"⟩] (by decide) .lonelyMember⟩

/-- C7: for every question type, `get_similarity` on two valid answers is
symmetric and lands in `[0, 1]`, and identical content gives 1.0 for the
discrete types. -/
theorem c7_similarity_spec (q : Question) (a b : Answer) (hwf : q.wf = true)
    (ha : q.validate_answer a = true) (hb : q.validate_answer b = true) :
    ∃ r : ℚ, q.get_similarity a b = .ok r ∧ q.get_similarity b a = .ok r ∧
      0 ≤ r ∧ r ≤ 1 ∧ (q.isDiscrete = true → a.content = b.content → r = 1) :=
  sim_spec q a b hwf ha hb

theorem c7_witness :
    qNum.wf = true ∧ qNum.validate_answer ⟨.int 3⟩ = true ∧
    qNum.validate_answer ⟨.int 7⟩ = true ∧
    ∃ r : ℚ, qNum.get_similarity ⟨.int 3⟩ ⟨.int 7⟩ = .ok r ∧
      qNum.get_similarity ⟨.int 7⟩ ⟨.int 3⟩ = .ok r ∧
      0 ≤ r ∧ r ≤ 1 ∧
      (qNum.isDiscrete = true → (⟨.int 3⟩ : Answer).content = (⟨.int 7⟩ : Answer).content → r = 1) :=
  ⟨by decide, by decide, by decide,
    c7_similarity_spec qNum ⟨.int 3⟩ ⟨.int 7⟩ (by decide) (by decide) (by decide)⟩

/-- C8: numeric similarity is exactly `1 - abs(a - b) / (max - min)` for
valid integer answers, is 1.0 on equal contents, and is 0.0 on the
extreme pair. -/
theorem c8_numeric_similarity (i : Int) (t : String) (mn mx a b : Int) (hlt : mn < mx)
    (ha : (Question.numeric i t mn mx).validate_answer ⟨.int a⟩ = true)
    (hb : (Question.numeric i t mn mx).validate_answer ⟨.int b⟩ = true) :
    (Question.numeric i t mn mx).get_similarity ⟨.int a⟩ ⟨.int b⟩
      = .ok (1 - ((|a - b| : Int) : ℚ) / ((mx - mn : Int) : ℚ)) ∧
    (a = b → (Question.numeric i t mn mx).get_similarity ⟨.int a⟩ ⟨.int b⟩ = .ok 1) ∧
    (Question.numeric i t mn mx).get_similarity ⟨.int mn⟩ ⟨.int mx⟩ = .ok 0 := by
  have hR : mx - mn ≠ 0 := by omega
  have hRq : ((mx - mn : Int) : ℚ) ≠ 0 := Int.cast_ne_zero.mpr hR
  refine ⟨?_, ?_, ?_⟩
  · simp [Question.get_similarity, pyNum, hR]
  · intro hab
    subst hab
    simp [Question.get_similarity, pyNum, hR]
  · simp only [Question.get_similarity, pyNum, hR, if_false, if_neg hR]
    have habs : |mn - mx| = mx - mn := by
      rw [abs_sub_comm]
      exact abs_of_nonneg (by omega)
    rw [habs, div_self hRq]
    norm_num

theorem c8_witness :
    ((0 : Int) < 10) ∧
    (Question.numeric 2 "Rate" 0 10).validate_answer ⟨.int 3⟩ = true ∧
    (Question.numeric 2 "Rate" 0 10).validate_answer ⟨.int 7⟩ = true ∧
    ((Question.numeric 2 "Rate" 0 10).get_similarity ⟨.int 3⟩ ⟨.int 7⟩
        = .ok (1 - ((|(3 : Int) - 7| : Int) : ℚ) / (((10 : Int) - 0 : Int) : ℚ)) ∧
      ((3 : Int) = 7 → (Question.numeric 2 "Rate" 0 10).get_similarity ⟨.int 3⟩ ⟨.int 7⟩ = .ok 1) ∧
      (Question.numeric 2 "Rate" 0 10).get_similarity ⟨.int 0⟩ ⟨.int 10⟩ = .ok 0) :=
  ⟨by decide, by decide, by decide,
    c8_numeric_similarity 2 "Rate" 0 10 3 7 (by decide) (by decide) (by decide)⟩

/-- C9 (counterexample): enrolling a batch whose first student reuses an
enrolled id leaves the course unchanged, but the method returns `None`
(modelled `none`), not a boolean result as the claim states. -/
theorem c9_counterexample :
    (∃ s ∈ batchC, s.id ∈ courseC.students.map (fun t => t.id)) ∧
    (Course.enroll_students courseC batchC).2 = none ∧
    (Course.enroll_students courseC batchC).1.students = courseC.students := by
  refine ⟨?_, ?_, ?_⟩ <;> decide

/-- C9 (amended): on a duplicate id the course is left completely
unchanged und no exception is raised, but the failure is silent: the
method returns `None`, not a boolean. -/
theorem c9_enroll_amended (c : Course) (batch : List Student)
    (hdup : ∃ s ∈ batch, s.id ∈ c.students.map (fun t => t.id)) :
    Course.enroll_students c batch = (c, none) := by
  simp [Course.enroll_students]
  intro hall
  obtain ⟨s, hs, hid⟩ := hdup
  rw [List.mem_map] at hid
  obtain ⟨t2, ht2, hteq⟩ := hid
  exact absurd hteq (hall s hs t2 ht2)

theorem c9_witness :
    (∃ s ∈ batchC, s.id ∈ courseC.students.map (fun t => t.id)) ∧
    Course.enroll_students courseC batchC = (courseC, none) :=
  ⟨by decide, c9_enroll_amended courseC batchC (by decide)⟩

/-- C10: `has_answer` is true exactly when an answer is recorded under
the question id, and recording any answer — valid or not — makes it
true; no validation is involved. -/
theorem c10_has_answer (s : Student) (q : Question) :
    (s.has_answer q = true ↔ ∃ a, s.get_answer q = some a) ∧
    (∀ a : Answer, (s.set_answer q a).has_answer q = true) := by
  constructor
  · simp [Student.has_answer, Student.get_answer, Option.isSome_iff_exists]
  · intro a
    simp [Student.has_answer, Student.set_answer, dictLookup_dictInsert_self]

theorem stepSwap_improves (S : Survey) (g g2 : Grouper.Grouping)
    (hs : Grouper.stepSwap S g = some g2) :
    Grouper.obj S g < Grouper.obj S g2 := by
  simp only [Grouper.stepSwap] at hs
  cases hp : Grouper.pickBest S g.allSwaps with
  | none => simp [hp] at hs
  | some b =>
    simp only [hp] at hs
    by_cases hob : Grouper.obj S g < Grouper.obj S b
    · rw [if_pos hob] at hs
      injection hs with h2
      rw [← h2]
      exact hob
    · rw [if_neg hob] at hs
      exact Option.noConfusion hs

theorem climb_ge (S : Survey) (fuel : Nat) (g : Grouper.Grouping) :
    Grouper.obj S g ≤ Grouper.obj S (Grouper.climb S fuel g) := by
  induction fuel generalizing g with
  | zero => simp [Grouper.climb]
  | succ n ih =>
    simp only [Grouper.climb]
    cases hs : Grouper.stepSwap S g with
    | none => exact le_refl _
    | some g2 => exact le_of_lt (lt_of_lt_of_le (stepSwap_improves S g g2 hs) (ih g2))

/-- C4: the greedy grouper starts from the deterministic baseline and
applies only strictly improving swaps, so its grouping never scores below
the AlphaGrouper grouping on the same population and survey (a raised
exception counting as score 0 on either side). -/
theorem c4_greedy_not_worse (size fuel : Nat) (population : List Student) (S : Survey)
    (hsize : 0 < size) (hdvd : size ∣ population.length) (hpop : population ≠ []) :
    exceptValD (S.score_grouping (Grouper.AlphaGrouper.make_grouping size population)) ≤
      exceptValD (S.score_grouping
        (Grouper.GreedyGrouper.make_grouping size fuel population S)) :=
  climb_ge S fuel (Grouper.AlphaGrouper.make_grouping size population)

theorem c4_witness :
    (0 < 2) ∧ (2 ∣ popW.length) ∧ (popW ≠ []) ∧
    (exceptValD (SB.score_grouping (Grouper.AlphaGrouper.make_grouping 2 popW)) ≤
      exceptValD (SB.score_grouping
        (Grouper.GreedyGrouper.make_grouping 2 3 popW SB))) :=
  ⟨by decide, by decide, by decide,
    c4_greedy_not_worse 2 3 popW SB (by decide) (by decide) (by decide)⟩

/-- C1 (counterexample): a survey whose single (checkbox) question is
scored by LonelyMember, with two students holding valid answers, meets
every hypothesis of the claim, yet `score_students` propagates a
`TypeError` instead of returning the claimed weighted-sum value. -/
theorem c1_counterexample :
    SLonely.wf = true ∧ SLonely._questions ≠ [] ∧
    ([stuL1, stuL2] : List Student) ≠ [] ∧
    (∀ q ∈ SLonely.get_questions, ∀ s ∈ [stuL1, stuL2],
      (s.get_answer q).any (fun a => q.validate_answer a) = true) ∧
    SLonely.score_students [stuL1, stuL2] = .error .typeError := by
  refine ⟨by decide, by decide, by decide, by decide, by decide⟩

/-- C1 (amended): for every well-formed survey with at least one
question, every non-empty student list in which every student holds a
valid recorded answer to every question, and no LonelyMember-scored
question gathering list-valued (checkbox) content, `score_students`
iterates the questions in strictly increasing id order and returns the
sum of criterion score times weight over the questions, divided by the
number of questions. -/
theorem c1_weighted_sum_amended (S : Survey) (sts : List Student)
    (hwf : S.wf = true) (hq : S._questions ≠ []) (hsts : sts ≠ [])
    (hans : ∀ q ∈ S.get_questions, ∀ s ∈ sts,
      (s.get_answer q).any (fun a => q.validate_answer a) = true)
    (hlon : ∀ q ∈ S.get_questions, S._get_criterion q = .lonelyMember →
      ∀ a ∈ gatheredAnswers sts q, a.content.isList = false) :
    S.get_questions.Pairwise (fun q1 q2 => q1.id < q2.id) ∧
    S.score_students sts = .ok ((S.get_questions.map (fun q =>
      exceptValD ((S._get_criterion q).score_answers q (gatheredAnswers sts q))
        * (S._get_weight q : ℚ))).sum / (S._questions.length : ℚ)) := by
  refine ⟨get_questions_sorted S hwf, ?_⟩
  have hgood : ∀ q ∈ S.get_questions,
      Survey._get_ans sts q = some (gatheredAnswers sts q) ∧
      ∃ r, (S._get_criterion q).score_answers q (gatheredAnswers sts q) = .ok r := by
    intro q hq2
    have hqwf := (mem_get_questions S hwf q hq2).2
    have hsome : ∀ s ∈ sts, (s.get_answer q).isSome = true := by
      intro s hs
      have h2 := hans q hq2 s hs
      cases h3 : s.get_answer q with
      | none => rw [h3] at h2; simp [Option.any] at h2
      | some a => rfl
    have hgans := getAns_all_some sts q hsome
    refine ⟨hgans, ?_⟩
    have hglen := (getAns_some_elim sts q _ hgans).2.1
    refine crit_ok _ q _ hqwf ?_ ?_ (hlon q hq2)
    · intro hc
      rw [hc] at hglen
      exact hsts (List.length_eq_zero.mp hglen.symm)
    · intro a ha
      rw [gatheredAnswers, List.mem_filterMap] at ha
      obtain ⟨s, hs, hsa⟩ := ha
      have h2 := hans q hq2 s hs
      rw [hsa] at h2
      simpa [Option.any] using h2
  have hloop := scoreLoop_ok S sts S.get_questions hgood 0
  have hlen : ¬(S._questions.length = 0) := by
    intro hc
    exact hq (List.length_eq_zero.mp hc)
  simp only [Survey.score_students, hlen, if_false, hloop]
  norm_num

/-- C2 (counterexample): with a LonelyMember-scored checkbox question
first in id order, a student missing an answer to the second question
does not make `score_students` return 0.0 — the `TypeError` from hashing
the list content propagates first. -/
theorem c2_counterexample :
    (∃ q ∈ SLonely2.get_questions, ∃ s ∈ [stuL1, stuL2], s.get_answer q = none) ∧
    SLonely2.score_students [stuL1, stuL2] = .error .typeError := by
  refine ⟨by decide, by decide⟩

theorem score_students_zero_of_cases (S : Survey) (sts : List Student)
    (hnh : ∀ total e, scoreLoop S sts S.get_questions total = .error e →
      e = .invalidAnswer)
    (hnc : ∀ total t, scoreLoop S sts S.get_questions total ≠ .ok (some t)) :
    S.score_students sts = .ok 0 := by
  simp only [Survey.score_students]
  split
  · rfl
  · cases h : scoreLoop S sts S.get_questions 0 with
    | ok t =>
      cases t with
      | none => simp [h]
      | some v => exact absurd h (hnc 0 v)
    | error e =>
      have he := hnh 0 e h
      subst he
      simp [h]

/-- C2 (amended): `score_students` never yields the InvalidAnswer error
itself; it returns 0.0 on a question-less survey; and — provided no
LonelyMember-scored question gathers list-valued content, which would
instead propagate a `TypeError` — it returns 0.0 whenever a student lacks
a recorded answer or some gathered answer is invalid for its question. -/
theorem c2_no_invalid_propagation_amended (S : Survey) (sts : List Student) :
    S.score_students sts ≠ .error .invalidAnswer ∧
    (S._questions = [] → S.score_students sts = .ok 0) ∧
    (S.wf = true → sts ≠ [] →
      (∀ q ∈ S.get_questions, S._get_criterion q = .lonelyMember →
        ∀ a ∈ gatheredAnswers sts q, a.content.isList = false) →
      ((∃ q ∈ S.get_questions, ∃ s ∈ sts, s.get_answer q = none) →
        S.score_students sts = .ok 0) ∧
      ((∃ q ∈ S.get_questions, ∃ a ∈ gatheredAnswers sts q,
          q.validate_answer a = false) →
        S.score_students sts = .ok 0)) := by
  refine ⟨?_, ?_, ?_⟩
  · simp only [Survey.score_students]
    split
    · simp
    · cases h : scoreLoop S sts S.get_questions 0 with
      | ok t => cases t <;> simp
      | error e => cases e <;> simp
  · intro h
    simp [Survey.score_students, h]
  · intro hwf hsts hlon
    have hwfq : ∀ q ∈ S.get_questions, q.wf = true :=
      fun q hq => (mem_get_questions S hwf q hq).2
    have hnh := scoreLoop_no_hard S sts S.get_questions hwfq hlon hsts
    constructor
    · intro hmiss
      exact score_students_zero_of_cases S sts hnh
        (scoreLoop_missing S sts S.get_questions hmiss)
    · intro hinv
      exact score_students_zero_of_cases S sts hnh
        (scoreLoop_invalid S sts S.get_questions hinv)

theorem c2_witness :
    SW.wf = true ∧ ([stuA, stuC] : List Student) ≠ [] ∧
    (∃ q ∈ SW.get_questions, ∃ s ∈ [stuA, stuC], s.get_answer q = none) ∧
    SW.score_students [stuA, stuC] = .ok 0 :=
  ⟨by decide, by decide, by decide,
    ((c2_no_invalid_propagation_amended SW [stuA, stuC]).2.2
      (by decide) (by decide) (by decide)).1 (by decide)⟩

theorem c1_witness :
    SW.wf = true ∧ SW._questions ≠ [] ∧ ([stuA, stuB] : List Student) ≠ [] ∧
    SW.get_questions.Pairwise (fun q1 q2 => q1.id < q2.id) ∧
    SW.score_students [stuA, stuB] = .ok ((SW.get_questions.map (fun q =>
      exceptValD ((SW._get_criterion q).score_answers q
        (gatheredAnswers [stuA, stuB] q))
        * (SW._get_weight q : ℚ))).sum / (SW._questions.length : ℚ)) := by
  refine ⟨by decide, by decide, by decide, ?_, ?_⟩
  · exact (c1_weighted_sum_amended SW [stuA, stuB] (by decide) (by decide)
      (by decide) (by decide) (by decide)).1
  · exact (c1_weighted_sum_amended SW [stuA, stuB] (by decide) (by decide)
      (by decide) (by decide) (by decide)).2
